import Mathlib

/-!
Verification of the compass fields-config loader
(`useFieldsConfig` / `parseYamlConfig`, source file `src/unnamed/part_000`).

The YAML text itself is parsed by the external `yaml` library, which is out
of scope; we embed the *parsed* document: an ordered list of
`(field name, raw field record)` entries, matching `Object.entries(yamlJson)`
(insertion order for string keys).

JavaScript values relevant to the code are embedded as follows:
  * a `label` / `errorMessage` that is "a plain string or a language-keyed
    mapping" becomes `LocStr`;
  * `values` ("an array, or a language-keyed mapping of arrays") becomes
    `ValuesVal`;
  * absent (`undefined`) properties become `Option`;
  * JS truthiness of an optional string (`undefined`, `null` and `""` are
    falsy) becomes `jsTruthy`;
  * thrown JS values are `Thrown`: either an `Error` instance (`JsError`,
    which records the error class in `kind` and the message) or a non-`Error`
    value.
-/

namespace Compass

/-- A JS value that is either a plain string or a mapping from language code
to string (association list in key order). -/
inductive LocStr where
  | str (s : String)
  | map (m : List (String × String))
deriving Repr, DecidableEq

/-- A JS `values` property: either an array of option strings, or a mapping
from language code to such an array. -/
inductive ValuesVal where
  | arr (vs : List String)
  | map (m : List (String × List String))
deriving Repr, DecidableEq

/-- The `validation` object of a raw field record: an optional
`errorMessage` (plain string or language-keyed mapping), plus the other
validation attributes, which the code passes through untouched (kept opaque
as a key/value list). -/
structure ValidationRec where
  errorMessage : Option LocStr
  rest : List (String × String)
deriving Repr, DecidableEq

/-- `validation` after localization: `errorMessage` resolved to (at most)
one string. -/
structure LocValidation where
  errorMessage : Option String
  rest : List (String × String)
deriving Repr, DecidableEq

/-- One raw field record of the schema document (the value part of one YAML
entry). `type?` is the raw `type` string (`none` = property absent). -/
structure RawField where
  type? : Option String
  label : Option LocStr
  values : Option ValuesVal
  validation : Option ValidationRec
  dataKey : Option String
deriving Repr, DecidableEq

/-- A parsed schema document: `Object.entries` of the YAML object, in the
document's own key order. -/
abbrev Doc := List (String × RawField)

/-- A JS `Error` instance: `kind` is the error class
(`"ConfigurationError"`, a network error class, `"Error"`, ...), `message`
its message. -/
structure JsError where
  kind : String
  message : String
deriving Repr, DecidableEq

/-- `new ConfigurationError(msg)` (class imported from
`src/error/commonErrors`). -/
def mkConfigError (msg : String) : JsError :=
  ⟨"ConfigurationError", msg⟩

/-- A thrown JS value: an `Error` instance, or any other value. -/
inductive Thrown where
  | err (e : JsError)
  | nonError (v : String)
deriving Repr, DecidableEq

/-- JS truthiness of an optional string: `undefined` and `""` are falsy. -/
def jsTruthy : Option String → Bool
  | none => false
  | some s => !(s == "")

/-- JS property lookup `m[k]` on a language-keyed mapping of strings
(first binding wins). -/
def lookupStr (m : List (String × String)) (k : String) : Option String :=
  (m.find? (fun p => p.1 == k)).map (fun p => p.2)

/-- JS property lookup `m[k]` on a language-keyed mapping of arrays. -/
def lookupVals (m : List (String × List String)) (k : String) :
    Option (List String) :=
  (m.find? (fun p => p.1 == k)).map (fun p => p.2)

/-- JS truthiness of `field.label` (`undefined` and `""` falsy, any object
truthy). -/
def labelTruthy : Option LocStr → Bool
  | none => false
  | some (.str s) => !(s == "")
  | some (.map _) => true

/-- The guard of line 109 of the source:
`!field.label || (typeof field.label === "object" && !field.label[lang])`. -/
def missingLabel (lang : String) (label : Option LocStr) : Bool :=
  !(labelTruthy label) ||
    (match label with
     | some (.map m) => !(jsTruthy (lookupStr m lang))
     | _ => false)

/-- Lines 113-115: `if (typeof field.label === "object") field.label =
field.label[lang]`; a plain string passes through unchanged. -/
def resolveLabel (lang : String) : Option LocStr → Option String
  | some (.str s) => some s
  | some (.map m) => lookupStr m lang
  | none => none

/-- Lines 118-120: if `values` exists and is a non-array object, replace it
by its entry for the language (possibly `undefined`); an array passes
through. -/
def localizeValues (lang : String) : Option ValuesVal → Option (List String)
  | none => none
  | some (.arr vs) => some vs
  | some (.map m) => lookupVals m lang

/-- Lines 123-128: if `validation.errorMessage` exists, is truthy and is an
object, replace `validation` by a copy whose `errorMessage` is the entry for
the language; otherwise `validation` is kept as-is. -/
def localizeValidation (lang : String) (v : ValidationRec) : LocValidation :=
  match v.errorMessage with
  | some (.map m) => ⟨lookupStr m lang, v.rest⟩
  | some (.str s) => ⟨some s, v.rest⟩
  | none => ⟨none, v.rest⟩

/-- The localized field record handed to the field-definition constructors
(the `field` object right before the `switch`, lines 130-139). -/
structure LocalizedField where
  type? : Option String
  label : Option String
  values : Option (List String)
  validation : Option LocValidation
  dataKey : Option String
deriving Repr, DecidableEq

/-- The validated, typed result: one constructor per `type` discriminant. -/
inductive FieldDefinition where
  | stringField (name label dataKey : String) (validation : Option LocValidation)
  | enumField (name label dataKey : String) (values : List String)
      (validation : Option LocValidation)
  | multipleSelectField (name label dataKey : String) (values : List String)
      (validation : Option LocValidation)
deriving Repr, DecidableEq

/-- The field's `name`. -/
def FieldDefinition.name : FieldDefinition → String
  | .stringField n _ _ _ => n
  | .enumField n _ _ _ _ => n
  | .multipleSelectField n _ _ _ _ => n

/-- The field's resolved display `label`. -/
def FieldDefinition.label : FieldDefinition → String
  | .stringField _ l _ _ => l
  | .enumField _ l _ _ _ => l
  | .multipleSelectField _ l _ _ _ => l

/-- The field's `dataKey`. -/
def FieldDefinition.dataKey : FieldDefinition → String
  | .stringField _ _ k _ => k
  | .enumField _ _ k _ _ => k
  | .multipleSelectField _ _ k _ _ => k

/-- Modelled from the spec: the `StringFieldDefinition` constructor lives in
`./types`, which is not among the given sources. Per spec 4.1, each variant
constructor "independently validates its own required fields and fails fast
with a descriptive error if malformed"; `type = String` "requires no
additional mandatory field beyond `label`/`dataKey`". -/
def StringFieldDefinition (name : String) (f : LocalizedField) :
    Except JsError FieldDefinition :=
  if !(jsTruthy f.label) then
    .error (mkConfigError s!"Missing required label for field '{name}'")
  else if !(jsTruthy f.dataKey) then
    .error (mkConfigError s!"Missing required dataKey for field '{name}'")
  else .ok (.stringField name (f.label.getD "") (f.dataKey.getD "") f.validation)

/-- Modelled from the spec: the `EnumFieldDefinition` constructor lives in
`./types`, which is not among the given sources. Per spec 4.1, `type = Enum`
additionally "requires `values` to resolve to a non-empty ordered sequence
of strings for the active language", whose order is preserved. -/
def EnumFieldDefinition (name : String) (f : LocalizedField) :
    Except JsError FieldDefinition :=
  if !(jsTruthy f.label) then
    .error (mkConfigError s!"Missing required label for field '{name}'")
  else if !(jsTruthy f.dataKey) then
    .error (mkConfigError s!"Missing required dataKey for field '{name}'")
  else
    match f.values with
    | some (v :: vs) =>
        .ok (.enumField name (f.label.getD "") (f.dataKey.getD "") (v :: vs)
          f.validation)
    | _ => .error (mkConfigError s!"Missing or empty values for field '{name}'")

/-- Modelled from the spec: the `MultipleSelectFieldDefinition` constructor
lives in `./types`, which is not among the given sources. Same requirements
as `EnumFieldDefinition` (spec 4.1). -/
def MultipleSelectFieldDefinition (name : String) (f : LocalizedField) :
    Except JsError FieldDefinition :=
  if !(jsTruthy f.label) then
    .error (mkConfigError s!"Missing required label for field '{name}'")
  else if !(jsTruthy f.dataKey) then
    .error (mkConfigError s!"Missing required dataKey for field '{name}'")
  else
    match f.values with
    | some (v :: vs) =>
        .ok (.multipleSelectField name (f.label.getD "") (f.dataKey.getD "")
          (v :: vs) f.validation)
    | _ => .error (mkConfigError s!"Missing or empty values for field '{name}'")

/-- What a JS template literal prints for the `type` property (`undefined`
when absent). -/
def typeValueStr : Option String → String
  | none => "undefined"
  | some s => s

/-- The body of the `Object.entries(...).map` callback, lines 104-139:
localize one raw field record (label guard and resolution, values and
validation localization) and construct the variant selected by `type`.
The `FieldType.String | Enum | MultipleSelect` constants come from `./types`
(not among the given sources); their values `"STRING"`, `"ENUM"`,
`"MULTIPLE_SELECT"` are taken from the spec's wire contract (spec 6). -/
def buildField (lang name : String) (raw : RawField) :
    Except JsError FieldDefinition :=
  if missingLabel lang raw.label then
    .error (mkConfigError s!"Missing label for field '{name}' (lang={lang})")
  else
    let f : LocalizedField :=
      { type? := raw.type?
        label := resolveLabel lang raw.label
        values := localizeValues lang raw.values
        validation := raw.validation.map (localizeValidation lang)
        dataKey := raw.dataKey }
    match raw.type? with
    | some "STRING" => StringFieldDefinition name f
    | some "ENUM" => EnumFieldDefinition name f
    | some "MULTIPLE_SELECT" => MultipleSelectFieldDefinition name f
    | t =>
        let ts := typeValueStr t
        .error (mkConfigError s!"Invalid field type for '{name}': {ts}")

/-- `Object.entries(yamlJson).map(callback)`: JS `map` runs the callback in
order and the first thrown error aborts the whole map. -/
def parseFields (lang : String) : Doc → Except JsError (List FieldDefinition)
  | [] => .ok []
  | (name, raw) :: rest =>
      match buildField lang name raw with
      | .error e => .error e
      | .ok f =>
          match parseFields lang rest with
          | .error e => .error e
          | .ok fs => .ok (f :: fs)

/-- The second pass of lines 142-149: walk the produced sequence with the
set of `dataKey`s seen so far (the source's `Map<string, boolean>` used as a
set) and throw on the first `dataKey` already seen. -/
def checkDuplicates (seen : List String) :
    List FieldDefinition → Except JsError Unit
  | [] => .ok ()
  | f :: fs =>
      if f.dataKey ∈ seen then
        .error (mkConfigError s!"Duplicate dataKey '{f.dataKey}'")
      else checkDuplicates (f.dataKey :: seen) fs

/-- `parseYamlConfig` (lines 94-156) on the already-parsed document: build
all field definitions, then validate `dataKey` uniqueness; the trailing
`catch { throw error }` of the source is the identity. The result is a
single `Except` value: either a fully validated sequence or one error,
never a partial sequence. -/
def parseYamlConfig (doc : Doc) (lang : String) :
    Except JsError (List FieldDefinition) :=
  match parseFields lang doc with
  | .error e => .error e
  | .ok fs =>
      match checkDuplicates [] fs with
      | .error e => .error e
      | .ok _ => .ok fs

/-- The `catch` handler of the fetch effect (lines 55-59):
`err instanceof Error ? err : new Error("Unknown error loading configuration")`.
An `Error` instance is surfaced unchanged; only a thrown non-`Error` value is
wrapped in a generic `Error`. -/
def fetchCatch : Thrown → JsError
  | .err e => e
  | .nonError _ => ⟨"Error", "Unknown error loading configuration"⟩

/-- The `catch` handler of the parse effect (lines 73-75):
`err instanceof Error ? err : new Error("Error parsing configuration")`. -/
def parseCatch : Thrown → JsError
  | .err e => e
  | .nonError _ => ⟨"Error", "Error parsing configuration"⟩

/-- Is the thrown value a network error or a configuration error (the two
named kinds of the spec's error taxonomy, spec 7)? -/
def isNetOrConfig : Thrown → Bool
  | .err e => e.kind == "NetworkError" || e.kind == "ConfigurationError"
  | .nonError _ => false

/-- The observable state of one `useFieldsConfig` hook instance: the three
published state cells plus the cached raw document
(`fetchedYaml : { yaml, lang } | null`; the yaml text is embedded as the
parsed document, see the module comment). Initially
`fields = []`, `loading = true`, `error = null`, `fetchedYaml = null`. -/
structure HookState where
  fields : List FieldDefinition
  loading : Bool
  error : Option JsError
  fetchedYaml : Option (Doc × String)
deriving Repr, DecidableEq

/-- The initial hook state (lines 23-26). -/
def initialHookState : HookState :=
  { fields := [], loading := true, error := none, fetchedYaml := none }

/-- The network: what `customFetch` + `response.text()` + the yaml parse
deliver for each requested language — either a raw document or a thrown
value. Deterministic within one run of an effect. -/
abbrev Net := String → Except Thrown Doc

/-- The first effect (lines 29-63), run on mount and on every language
change, with `lang` already resolved (`i18n.language || DEFAULT_LOCALE`,
line 30). If any yaml is already cached (`if (fetchedYaml) return`, lines
34-36) the effect returns at once and performs no network I/O. Otherwise it
sets `loading = true` and fetches: on success it stores the document with
the language it was fetched for and clears `error` (leaving `loading` true
for the parse effect to clear); on failure it sets `error` through
`fetchCatch` and sets `loading = false`. The returned Bool records whether
network I/O was triggered. -/
def fetchEffect (net : Net) (lang : String) (s : HookState) :
    HookState × Bool :=
  match s.fetchedYaml with
  | some _ => (s, false)
  | none =>
      match net lang with
      | .ok doc =>
          ({ s with
              loading := true
              fetchedYaml := some (doc, lang)
              error := none }, true)
      | .error t =>
          ({ s with error := some (fetchCatch t), loading := false }, true)

/-- The second effect (lines 66-80), run on every language change and
whenever `fetchedYaml` changes: if a raw document is cached, re-parse it for
the current language; on success replace `fields` and clear `error`, on
failure set `error` and leave `fields` untouched; in both cases (`finally`)
set `loading = false`. With no cached document the effect does nothing. -/
def parseEffect (lang : String) (s : HookState) : HookState :=
  match s.fetchedYaml with
  | none => s
  | some (doc, _) =>
      match parseYamlConfig doc lang with
      | .ok fs => { s with fields := fs, error := none, loading := false }
      | .error e => { s with error := some e, loading := false }

/-- One active-language change event: React re-runs both effects in
declaration order (both depend on `i18n.language`). -/
def languageChange (net : Net) (lang : String) (s : HookState) :
    HookState × Bool :=
  let (s1, fetched) := fetchEffect net lang s
  (parseEffect lang s1, fetched)

/-! ### Heap model of the localization step

`const field = { ...rawField }` (line 106) is a *shallow* copy: the copy's
`validation` slot holds the same object reference as the raw record's. To
state non-mutation of the raw record (claim about lines 104-128) in a way
that would fail if the code wrote through that shared reference, the
`validation` object is placed on an explicit heap and records hold a
reference (index) to it. The code's
`field.validation = { ...field.validation, errorMessage: ... }` (lines
124-127) allocates a *new* object and redirects only the copy's slot; it
never writes into the object the raw record references. -/

/-- A heap of JS `validation` objects; a reference is an index. -/
abbrev Heap := List ValidationRec

/-- Dereference a validation-object reference. -/
def heapGet (h : Heap) (i : Nat) : Option ValidationRec := h.get? i

/-- A raw field record whose `validation` slot is a reference into the
heap. -/
structure RawFieldRef where
  type? : Option String
  label : Option LocStr
  values : Option ValuesVal
  validation : Option Nat
  dataKey : Option String
deriving Repr, DecidableEq

/-- The localized record produced by lines 104-128 in the heap model; its
`validation` slot is still a reference. -/
structure LocFieldRef where
  type? : Option String
  label : Option String
  values : Option (List String)
  validation : Option Nat
  dataKey : Option String
deriving Repr, DecidableEq

/-- Lines 104-128 (the localization part of the `map` callback) on the heap
model: shallow-copy the raw record (the copy initially shares the raw
record's `validation` reference), resolve the label (throwing on a missing
label), localize `values`, and, when `validation.errorMessage` is a truthy
object, allocate a fresh `validation` object with the localized
`errorMessage` and point the copy at it. All writes target the copy's own
slots or the freshly allocated object. -/
def localizeFieldRef (h : Heap) (lang name : String) (raw : RawFieldRef) :
    Except JsError (Heap × LocFieldRef) :=
  if missingLabel lang raw.label then
    .error (mkConfigError s!"Missing label for field '{name}' (lang={lang})")
  else
    let label := resolveLabel lang raw.label
    let values := localizeValues lang raw.values
    match raw.validation with
    | none => .ok (h, ⟨raw.type?, label, values, none, raw.dataKey⟩)
    | some p =>
        match heapGet h p with
        | none => .ok (h, ⟨raw.type?, label, values, some p, raw.dataKey⟩)
        | some vobj =>
            match vobj.errorMessage with
            | some (.map m) =>
                let fresh := h.length
                let h2 := h ++ [⟨(lookupStr m lang).map LocStr.str, vobj.rest⟩]
                .ok (h2, ⟨raw.type?, label, values, some fresh, raw.dataKey⟩)
            | _ => .ok (h, ⟨raw.type?, label, values, some p, raw.dataKey⟩)

/-! ### Validity predicates and specification-side characterizations -/

/-- Does an optional localized `values` sequence exist and is it
non-empty? -/
def nonEmptyValues : Option (List String) → Bool
  | some (_ :: _) => true
  | _ => false

/-- A document entry the parser accepts for `lang`: its label resolves
(line 109's guard is false), its `dataKey` is present and non-empty, and its
`type` is one of the three recognized discriminants, with `values`
resolving to a non-empty sequence for the selection types. -/
def validEntry (lang : String) (e : String × RawField) : Prop :=
  missingLabel lang e.2.label = false ∧
  jsTruthy e.2.dataKey = true ∧
  (e.2.type? = some "STRING" ∨
    ((e.2.type? = some "ENUM" ∨ e.2.type? = some "MULTIPLE_SELECT") ∧
      nonEmptyValues (localizeValues lang e.2.values) = true))

/-- Is the language present in every language-keyed mapping
(`label`, `values`, `validation.errorMessage`) of the entry? -/
def langPresentB (lang : String) (e : String × RawField) : Bool :=
  (match e.2.label with
   | some (.map m) => (lookupStr m lang).isSome
   | _ => true) &&
  (match e.2.values with
   | some (.map m) => (lookupVals m lang).isSome
   | _ => true) &&
  (match e.2.validation with
   | some v =>
       match v.errorMessage with
       | some (.map m) => (lookupStr m lang).isSome
       | _ => true
   | none => true)

instance validEntry.decidable (lang : String) (e : String × RawField) :
    Decidable (validEntry lang e) := by
  unfold validEntry
  infer_instance

/-- The first element of the list that repeats an element already seen
(starting from the elements in `seen`): the key on which the second pass of
lines 142-149 fails. -/
def firstDup (seen : List String) : List String → Option String
  | [] => none
  | k :: ks => if k ∈ seen then some k else firstDup (k :: seen) ks

/-! ### Concrete inputs for witnesses and counterexamples -/

/-- The raw `firstName` record of the spec's end-to-end example (spec 8). -/
def firstNameField : RawField :=
  { type? := some "STRING"
    label := some (.map [("en", "First name"), ("es", "Nombre")])
    values := none
    validation := none
    dataKey := some "firstName" }

/-- The raw `country` record of the spec's end-to-end example (spec 8). -/
def countryField : RawField :=
  { type? := some "ENUM"
    label := some (.map [("en", "Country"), ("es", "País")])
    values := some (.map [("en", ["US", "CA"]), ("es", ["US", "CA"])])
    validation := none
    dataKey := some "country" }

/-- The spec's end-to-end example document (spec 8): a STRING field
`firstName` and an ENUM field `country`, localized for `en`/`es`. -/
def exampleDoc : Doc :=
  [("firstName", firstNameField), ("country", countryField)]

/-- A network that always delivers `exampleDoc`. -/
def exampleNet : Net := fun _ => .ok exampleDoc

/-- A network that always fails with a thrown non-`Error` value. -/
def failingNet : Net := fun _ => .error (.nonError "oops")

/-- A hook state in which `exampleDoc` has already been fetched for
language `en`. -/
def cachedState : HookState :=
  { fields := [], loading := true, error := none,
    fetchedYaml := some (exampleDoc, "en") }

/-- `exampleDoc` followed by a third entry whose `dataKey` repeats
`firstName`'s. -/
def dupDoc : Doc :=
  exampleDoc ++
    [("nick",
      { type? := some "STRING"
        label := some (.str "Nick")
        values := none
        validation := none
        dataKey := some "firstName" })]

/-- The field definitions `dupDoc`'s entries construct (before the
uniqueness pass). -/
def dupFields : List FieldDefinition :=
  [.stringField "firstName" "First name" "firstName" none,
   .enumField "country" "Country" "country" ["US", "CA"] none,
   .stringField "nick" "Nick" "firstName" none]

/-- A raw entry whose `type` is not a recognized discriminant. -/
def boolField : RawField :=
  { type? := some "BOOL", label := some (.str "Subscribed"), values := none,
    validation := none, dataKey := some "subscribed" }

/-- A raw entry whose `label` is the empty string. -/
def emptyLabelField : RawField :=
  { type? := some "STRING", label := some (.str ""), values := none,
    validation := none, dataKey := some "k" }

/-- A one-object heap: a `validation` object with a language-keyed
`errorMessage` and one further attribute. -/
def exHeap : Heap :=
  [⟨some (.map [("en", "bad"), ("es", "malo")]), [("pattern", "x")]⟩]

/-- A raw record (heap model) whose `validation` slot references the object
of `exHeap`. -/
def exRawRef : RawFieldRef :=
  { type? := some "STRING", label := some (.str "L"), values := none,
    validation := some 0, dataKey := some "k" }

/-- `exHeap` after localizing `exRawRef` for `es`: the original object is
untouched and a fresh localized copy has been allocated. -/
def exHeap2 : Heap :=
  [⟨some (.map [("en", "bad"), ("es", "malo")]), [("pattern", "x")]⟩,
   ⟨some (.str "malo"), [("pattern", "x")]⟩]

/-- The localized record produced from `exRawRef`: it references the fresh
object. -/
def exLocRef : LocFieldRef :=
  { type? := some "STRING", label := some "L", values := none,
    validation := some 1, dataKey := some "k" }

/-! ### Helper lemmas -/

/-- If line 109's guard is false, the resolved label is truthy
(present and non-empty). -/
lemma resolveLabel_truthy (lang : String) (lab : Option LocStr)
    (h : missingLabel lang lab = false) :
    jsTruthy (resolveLabel lang lab) = true := by
  cases lab with
  | none => simp [missingLabel, labelTruthy] at h
  | some ls =>
      cases ls with
      | str s =>
          simp only [missingLabel, labelTruthy, Bool.or_eq_false_iff,
            Bool.not_eq_false'] at h
          simpa [resolveLabel, jsTruthy] using h.1
      | map m =>
          simp only [missingLabel, labelTruthy, Bool.not_true,
            Bool.false_or, Bool.not_eq_false'] at h
          simpa [resolveLabel] using h

/-- A valid entry constructs successfully, keeping its name and raw
`dataKey`. -/
lemma buildField_ok_of_valid (lang name : String) (raw : RawField)
    (h : validEntry lang (name, raw)) :
    ∃ f, buildField lang name raw = .ok f ∧ f.name = name ∧
      f.dataKey = raw.dataKey.getD "" := by
  obtain ⟨hml, hdk, hty⟩ := h
  dsimp only at hml hdk hty
  have hlt := resolveLabel_truthy lang raw.label hml
  rcases hty with ht | ⟨ht, hv⟩
  · exact ⟨.stringField name ((resolveLabel lang raw.label).getD "")
      (raw.dataKey.getD "") (raw.validation.map (localizeValidation lang)),
      by simp [buildField, hml, ht, StringFieldDefinition, hlt, hdk],
      rfl, rfl⟩
  · cases hlv : localizeValues lang raw.values with
    | none => rw [hlv] at hv; simp [nonEmptyValues] at hv
    | some l =>
        cases l with
        | nil => rw [hlv] at hv; simp [nonEmptyValues] at hv
        | cons v vs =>
            rcases ht with ht | ht
            · exact ⟨.enumField name ((resolveLabel lang raw.label).getD "")
                (raw.dataKey.getD "") (v :: vs)
                (raw.validation.map (localizeValidation lang)),
                by simp [buildField, hml, ht, EnumFieldDefinition, hlt, hdk, hlv],
                rfl, rfl⟩
            · exact ⟨.multipleSelectField name
                ((resolveLabel lang raw.label).getD "")
                (raw.dataKey.getD "") (v :: vs)
                (raw.validation.map (localizeValidation lang)),
                by simp [buildField, hml, ht, MultipleSelectFieldDefinition,
                  hlt, hdk, hlv],
                rfl, rfl⟩

/-- A document of valid entries constructs completely, in order, with the
raw `dataKey`s. -/
lemma parseFields_ok_of_valid (lang : String) (doc : Doc)
    (h : ∀ e ∈ doc, validEntry lang e) :
    ∃ fs, parseFields lang doc = .ok fs ∧
      fs.map FieldDefinition.name = doc.map Prod.fst ∧
      fs.map FieldDefinition.dataKey =
        doc.map (fun e => e.2.dataKey.getD "") := by
  induction doc with
  | nil => exact ⟨[], rfl, rfl, rfl⟩
  | cons e rest ih =>
      obtain ⟨name, raw⟩ := e
      obtain ⟨f, hf, hn, hk⟩ :=
        buildField_ok_of_valid lang name raw (h _ (List.mem_cons_self _ _))
      obtain ⟨fs, hfs, hns, hks⟩ :=
        ih (fun e he => h e (List.mem_cons_of_mem _ he))
      exact ⟨f :: fs, by simp [parseFields, hf, hfs],
        by simp [hn, hns], by simp [hk, hks]⟩

/-- The second pass fails exactly on `firstDup` of the `dataKey` sequence,
naming that key. -/
lemma checkDuplicates_eq (fs : List FieldDefinition) : ∀ seen : List String,
    checkDuplicates seen fs =
      match firstDup seen (fs.map FieldDefinition.dataKey) with
      | none => .ok ()
      | some k => .error (mkConfigError s!"Duplicate dataKey '{k}'") := by
  induction fs with
  | nil => intro seen; rfl
  | cons f fs ih =>
      intro seen
      by_cases hmem : f.dataKey ∈ seen
      · simp [checkDuplicates, firstDup, hmem]
      · simp [checkDuplicates, firstDup, hmem, ih]

/-- On a duplicate-free list disjoint from `seen`, `firstDup` finds
nothing. -/
lemma firstDup_eq_none (ks : List String) : ∀ seen : List String,
    ks.Nodup → (∀ k ∈ ks, k ∉ seen) → firstDup seen ks = none := by
  induction ks with
  | nil => intro seen _ _; rfl
  | cons k ks ih =>
      intro seen hnd hdisj
      have hk : k ∉ seen := hdisj k (List.mem_cons_self _ _)
      rw [firstDup, if_neg hk]
      apply ih
      · exact (List.nodup_cons.mp hnd).2
      · intro j hj hmem
        rcases List.mem_cons.mp hmem with rfl | hjs
        · exact (List.nodup_cons.mp hnd).1 hj
        · exact hdisj j (List.mem_cons_of_mem _ hj) hjs

/-- On a list with a repetition (or meeting `seen`), `firstDup` finds a
key. -/
lemma firstDup_isSome (ks : List String) : ∀ seen : List String,
    (¬ ks.Nodup ∨ ∃ k ∈ ks, k ∈ seen) →
    ∃ k, firstDup seen ks = some k := by
  induction ks with
  | nil =>
      intro seen h
      rcases h with h | ⟨k, hk, _⟩
      · exact absurd List.nodup_nil h
      · exact absurd hk (List.not_mem_nil k)
  | cons k ks ih =>
      intro seen h
      by_cases hmem : k ∈ seen
      · exact ⟨k, by rw [firstDup, if_pos hmem]⟩
      · have hnext : ¬ ks.Nodup ∨ ∃ j ∈ ks, j ∈ k :: seen := by
          rcases h with h | ⟨j, hj, hjs⟩
          · rw [List.nodup_cons] at h
            push_neg at h
            by_cases hks : k ∈ ks
            · exact Or.inr ⟨k, hks, List.mem_cons_self _ _⟩
            · exact Or.inl (h hks)
          · rcases List.mem_cons.mp hj with rfl | hj2
            · exact absurd hjs hmem
            · exact Or.inr ⟨j, hj2, List.mem_cons_of_mem _ hjs⟩
        obtain ⟨j, hj⟩ := ih (k :: seen) hnext
        exact ⟨j, by rw [firstDup, if_neg hmem, hj]⟩

/-- If line 109's guard holds, the entry fails with the missing-label
configuration error. -/
lemma buildField_missing_label (lang name : String) (raw : RawField)
    (h : missingLabel lang raw.label = true) :
    buildField lang name raw =
      .error (mkConfigError s!"Missing label for field '{name}' (lang={lang})") := by
  simp [buildField, h]

/-- A failing entry after a prefix of successful ones fails the whole
construction pass with the entry's own error. -/
lemma parseFields_append_error (lang name : String) (raw : RawField)
    (post : Doc) (e : JsError)
    (herr : buildField lang name raw = .error e) :
    ∀ pre : Doc, (∃ gs, parseFields lang pre = .ok gs) →
    parseFields lang (pre ++ (name, raw) :: post) = .error e := by
  intro pre
  induction pre with
  | nil => intro _; simp [parseFields, herr]
  | cons hd tl ih =>
      obtain ⟨n0, r0⟩ := hd
      rintro ⟨gs, hgs⟩
      simp only [List.cons_append, parseFields] at hgs ⊢
      cases h0 : buildField lang n0 r0 with
      | error e0 => rw [h0] at hgs; simp at hgs
      | ok f0 =>
          rw [h0] at hgs
          dsimp only at hgs ⊢
          cases h1 : parseFields lang tl with
          | error e1 => rw [h1] at hgs; simp at hgs
          | ok gs1 => simp [ih ⟨gs1, h1⟩]

/-- A construction-pass error is the whole parse's error (the duplicate
pass never runs). -/
lemma parseYamlConfig_error (doc : Doc) (lang : String) (e : JsError)
    (h : parseFields lang doc = .error e) :
    parseYamlConfig doc lang = .error e := by
  simp [parseYamlConfig, h]

/-- If the whole parse succeeds, the construction pass succeeded with the
same sequence. -/
lemma parseYamlConfig_ok_inv (doc : Doc) (lang : String)
    (fs : List FieldDefinition) (h : parseYamlConfig doc lang = .ok fs) :
    parseFields lang doc = .ok fs := by
  unfold parseYamlConfig at h
  cases h0 : parseFields lang doc with
  | error e => rw [h0] at h; simp at h
  | ok fs1 =>
      rw [h0] at h
      dsimp only at h
      cases h1 : checkDuplicates [] fs1 with
      | error e => rw [h1] at h; simp at h
      | ok u =>
          rw [h1] at h
          simp at h
          rw [h]

/-- Inversion of the STRING constructor: the produced variant carries the
given name and the localized record's label and dataKey. -/
lemma StringFieldDefinition_ok (name : String) (f0 : LocalizedField)
    (f : FieldDefinition) (h : StringFieldDefinition name f0 = .ok f) :
    f = .stringField name (f0.label.getD "") (f0.dataKey.getD "")
      f0.validation := by
  unfold StringFieldDefinition at h
  split at h
  · simp at h
  · split at h
    · simp at h
    · injection h with h; rw [h]

/-- Inversion of the ENUM constructor. -/
lemma EnumFieldDefinition_ok (name : String) (f0 : LocalizedField)
    (f : FieldDefinition) (h : EnumFieldDefinition name f0 = .ok f) :
    ∃ v vs, f0.values = some (v :: vs) ∧
      f = .enumField name (f0.label.getD "") (f0.dataKey.getD "") (v :: vs)
        f0.validation := by
  unfold EnumFieldDefinition at h
  split at h
  · simp at h
  · split at h
    · simp at h
    · split at h
      next v vs heq => exact ⟨v, vs, heq, by injection h with h; rw [h]⟩
      next => simp at h

/-- Inversion of the MULTIPLE_SELECT constructor. -/
lemma MultipleSelectFieldDefinition_ok (name : String) (f0 : LocalizedField)
    (f : FieldDefinition) (h : MultipleSelectFieldDefinition name f0 = .ok f) :
    ∃ v vs, f0.values = some (v :: vs) ∧
      f = .multipleSelectField name (f0.label.getD "") (f0.dataKey.getD "")
        (v :: vs) f0.validation := by
  unfold MultipleSelectFieldDefinition at h
  split at h
  · simp at h
  · split at h
    · simp at h
    · split at h
      next v vs heq => exact ⟨v, vs, heq, by injection h with h; rw [h]⟩
      next => simp at h

/-- Inversion of the whole map callback: whatever variant was built carries
the entry's name, the resolved label and the raw `dataKey`. -/
lemma buildField_ok_label (lang name : String) (raw : RawField)
    (f : FieldDefinition) (h : buildField lang name raw = .ok f) :
    f.label = (resolveLabel lang raw.label).getD "" ∧ f.name = name ∧
    f.dataKey = raw.dataKey.getD "" := by
  unfold buildField at h
  split at h
  · simp at h
  · split at h
    · rw [StringFieldDefinition_ok _ _ _ h]; exact ⟨rfl, rfl, rfl⟩
    · obtain ⟨v, vs, -, hf⟩ := EnumFieldDefinition_ok _ _ _ h
      rw [hf]; exact ⟨rfl, rfl, rfl⟩
    · obtain ⟨v, vs, -, hf⟩ := MultipleSelectFieldDefinition_ok _ _ _ h
      rw [hf]; exact ⟨rfl, rfl, rfl⟩
    · simp at h

/-- With a resolvable label and an unrecognized `type`, the entry fails
with the invalid-type configuration error (the `default` arm of the
`switch`, lines 137-138). -/
lemma buildField_invalid_type (lang name : String) (raw : RawField)
    (hlab : missingLabel lang raw.label = false)
    (ht : raw.type? ≠ some "STRING" ∧ raw.type? ≠ some "ENUM" ∧
      raw.type? ≠ some "MULTIPLE_SELECT") (ts : String)
    (hts : ts = typeValueStr raw.type?) :
    buildField lang name raw =
      .error (mkConfigError s!"Invalid field type for '{name}': {ts}") := by
  subst hts
  unfold buildField
  rw [if_neg (by simp [hlab])]
  split
  next heq => exact absurd heq ht.1
  next heq => exact absurd heq ht.2.1
  next heq => exact absurd heq ht.2.2
  next => rfl

/-- An entry with an unrecognized `type` never constructs, whatever its
label. -/
lemma buildField_invalid_fails (lang name : String) (raw : RawField)
    (ht : raw.type? ≠ some "STRING" ∧ raw.type? ≠ some "ENUM" ∧
      raw.type? ≠ some "MULTIPLE_SELECT") :
    ∀ f, buildField lang name raw ≠ .ok f := by
  intro f
  by_cases hlab : missingLabel lang raw.label = true
  · rw [buildField_missing_label lang name raw hlab]; simp
  · rw [buildField_invalid_type lang name raw
      (Bool.not_eq_true _ ▸ hlab) ht (typeValueStr raw.type?) rfl]
    simp

/-- A document containing an entry that never constructs never passes the
construction pass. -/
lemma parseFields_mem_not_ok (lang name : String) (raw : RawField)
    (hb : ∀ f, buildField lang name raw ≠ .ok f) :
    ∀ doc : Doc, (name, raw) ∈ doc → ∀ fs, parseFields lang doc ≠ .ok fs := by
  intro doc
  induction doc with
  | nil => intro h; exact absurd h (List.not_mem_nil _)
  | cons hd tl ih =>
      obtain ⟨n0, r0⟩ := hd
      intro hmem fs hok
      simp only [parseFields] at hok
      cases h0 : buildField lang n0 r0 with
      | error e0 => rw [h0] at hok; simp at hok
      | ok f0 =>
          rw [h0] at hok
          dsimp only at hok
          cases h1 : parseFields lang tl with
          | error e1 => rw [h1] at hok; simp at hok
          | ok fs1 =>
              rcases List.mem_cons.mp hmem with heq | hmem2
              · cases heq
                exact hb f0 h0
              · exact ih hmem2 fs1 h1

/-! ### The claims about the schema parser -/

/-- C3: for every valid schema document and every language present in
every label/values/validation mapping of it, parsing succeeds and yields
one field definition per entry, in the document's own key order, with
pairwise distinct `dataKey`s. -/
theorem parseYamlConfig_valid_ok (lang : String) (doc : Doc)
    (hval : ∀ e ∈ doc, validEntry lang e)
    (hpres : ∀ e ∈ doc, langPresentB lang e = true)
    (hkeys : (doc.map (fun e => e.2.dataKey.getD "")).Nodup) :
    ∃ fs, parseYamlConfig doc lang = .ok fs ∧
      fs.length = doc.length ∧
      fs.map FieldDefinition.name = doc.map Prod.fst ∧
      (fs.map FieldDefinition.dataKey).Nodup := by
  obtain ⟨fs, hfs, hns, hks⟩ := parseFields_ok_of_valid lang doc hval
  have hnd : (fs.map FieldDefinition.dataKey).Nodup := by rw [hks]; exact hkeys
  have hfd : firstDup [] (fs.map FieldDefinition.dataKey) = none :=
    firstDup_eq_none _ [] hnd (by simp)
  refine ⟨fs, ?_, ?_, hns, hnd⟩
  · simp [parseYamlConfig, hfs, checkDuplicates_eq, hfd]
  · have hlen := congrArg List.length hns
    simpa using hlen

/-- C4: when all entries construct but two share a `dataKey`, the second
pass (which runs only after construction completed) fails on the first
repeated key in iteration order with a configuration error naming that key;
being a single `Except` value, the parse returns this one error and no
partial sequence. -/
theorem parseYamlConfig_duplicate_dataKey (lang : String) (doc : Doc)
    (fs : List FieldDefinition)
    (hfs : parseFields lang doc = .ok fs)
    (hdup : ¬ (fs.map FieldDefinition.dataKey).Nodup) :
    ∃ dk, firstDup [] (fs.map FieldDefinition.dataKey) = some dk ∧
      parseYamlConfig doc lang =
        .error (mkConfigError s!"Duplicate dataKey '{dk}'") := by
  obtain ⟨dk, hd⟩ := firstDup_isSome _ [] (Or.inl hdup)
  exact ⟨dk, hd, by simp [parseYamlConfig, hfs, checkDuplicates_eq, hd]⟩

/-- C5: an entry whose label is absent, or is a mapping lacking the active
language, fails the parse with a configuration error naming the field and
the language (no partial result, the parse being one `Except` value), while
a plain-string label passes through into the constructed field unchanged. -/
theorem parseYamlConfig_label_errors (lang name : String) (raw : RawField)
    (pre post : Doc) (gs : List FieldDefinition)
    (hpre : parseFields lang pre = .ok gs)
    (hlab : raw.label = none ∨
      ∃ m, raw.label = some (.map m) ∧ lookupStr m lang = none) :
    parseYamlConfig (pre ++ (name, raw) :: post) lang =
      .error (mkConfigError s!"Missing label for field '{name}' (lang={lang})") ∧
    (∀ (raw2 : RawField) (s : String) (f : FieldDefinition),
      raw2.label = some (.str s) → buildField lang name raw2 = .ok f →
      f.label = s) := by
  constructor
  · have hm : missingLabel lang raw.label = true := by
      rcases hlab with h | ⟨m, hm2, hl⟩
      · simp [missingLabel, labelTruthy, h]
      · simp [missingLabel, labelTruthy, hm2, hl, jsTruthy]
    exact parseYamlConfig_error _ _ _
      (parseFields_append_error lang name raw post _
        (buildField_missing_label lang name raw hm) pre ⟨gs, hpre⟩)
  · intro raw2 s f hl hok
    have := (buildField_ok_label lang name raw2 f hok).1
    rw [this, hl, resolveLabel]
    rfl

/-- C6: an entry with an unrecognized `type` makes the parse fail; when the
entry is reached (all earlier entries construct and its own label
resolves), the error is a configuration error naming the offending field
and the invalid type string. -/
theorem parseYamlConfig_invalid_type (lang name : String) (raw : RawField)
    (pre post : Doc) (gs : List FieldDefinition) (ts : String)
    (hpre : parseFields lang pre = .ok gs)
    (hlab : missingLabel lang raw.label = false)
    (ht : raw.type? ≠ some "STRING" ∧ raw.type? ≠ some "ENUM" ∧
      raw.type? ≠ some "MULTIPLE_SELECT")
    (hts : ts = typeValueStr raw.type?) :
    parseYamlConfig (pre ++ (name, raw) :: post) lang =
      .error (mkConfigError s!"Invalid field type for '{name}': {ts}") ∧
    (∀ doc : Doc, (name, raw) ∈ doc →
      ∃ e, parseYamlConfig doc lang = .error e) := by
  constructor
  · exact parseYamlConfig_error _ _ _
      (parseFields_append_error lang name raw post _
        (buildField_invalid_type lang name raw hlab ht ts hts) pre ⟨gs, hpre⟩)
  · intro doc hmem
    cases hp : parseYamlConfig doc lang with
    | error e => exact ⟨e, rfl⟩
    | ok fs =>
        exact absurd (parseYamlConfig_ok_inv doc lang fs hp)
          (parseFields_mem_not_ok lang name raw
            (buildField_invalid_fails lang name raw ht) doc hmem fs)

/-- C10: an entry whose label is the empty string, or whose label mapping
holds the empty string under the active language, fails with the same
missing-label configuration error as an absent label (JS falsiness of `""`
in line 109's guard): it is treated as missing, not passed through. -/
theorem parseYamlConfig_empty_label (lang name : String) (raw : RawField)
    (pre post : Doc) (gs : List FieldDefinition)
    (hpre : parseFields lang pre = .ok gs)
    (hlab : raw.label = some (.str "") ∨
      ∃ m, raw.label = some (.map m) ∧ lookupStr m lang = some "") :
    parseYamlConfig (pre ++ (name, raw) :: post) lang =
      .error (mkConfigError s!"Missing label for field '{name}' (lang={lang})") := by
  have hm : missingLabel lang raw.label = true := by
    rcases hlab with h | ⟨m, hm2, hl⟩
    · simp [missingLabel, labelTruthy, h]
    · simp [missingLabel, labelTruthy, hm2, hl, jsTruthy]
  exact parseYamlConfig_error _ _ _
    (parseFields_append_error lang name raw post _
      (buildField_missing_label lang name raw hm) pre ⟨gs, hpre⟩)

/-! ### The claims about the hook (fetch and parse effects) -/

/-- Reduction of the parse effect when a document is cached. -/
lemma parseEffect_eq (lang l0 : String) (s : HookState) (doc : Doc)
    (hc : s.fetchedYaml = some (doc, l0)) :
    parseEffect lang s =
      match parseYamlConfig doc lang with
      | .ok fs => { s with fields := fs, error := none, loading := false }
      | .error e => { s with error := some e, loading := false } := by
  unfold parseEffect
  rw [hc]

/-- Reduction of the fetch effect when a document is cached: immediate
return, no network I/O. -/
lemma fetchEffect_eq_cached (net : Net) (lang : String) (s : HookState)
    (p : Doc × String) (hc : s.fetchedYaml = some p) :
    fetchEffect net lang s = (s, false) := by
  unfold fetchEffect
  rw [hc]

/-- C7: when a raw document is cached, every run of the parse effect ends
with `loading = false`; on parse success `fields` is replaced and `error`
cleared; on parse failure `error` is set and the previous `fields` value is
retained unchanged. -/
theorem parseEffect_state_contract (lang l0 : String) (s : HookState)
    (doc : Doc) (hc : s.fetchedYaml = some (doc, l0)) :
    (parseEffect lang s).loading = false ∧
    (∀ fs, parseYamlConfig doc lang = .ok fs →
      (parseEffect lang s).fields = fs ∧ (parseEffect lang s).error = none) ∧
    (∀ e, parseYamlConfig doc lang = .error e →
      (parseEffect lang s).error = some e ∧
      (parseEffect lang s).fields = s.fields) := by
  have hpe := parseEffect_eq lang l0 s doc hc
  cases hp : parseYamlConfig doc lang with
  | ok fs =>
      rw [hp] at hpe
      rw [hpe]
      refine ⟨rfl, fun fs2 h2 => ?_, fun e2 h2 => ?_⟩
      · cases h2
        exact ⟨rfl, rfl⟩
      · exact Except.noConfusion h2
  | error e =>
      rw [hp] at hpe
      rw [hpe]
      refine ⟨rfl, fun fs2 h2 => ?_, fun e2 h2 => ?_⟩
      · exact Except.noConfusion h2
      · cases h2
        exact ⟨rfl, rfl⟩

/-- C2: once a raw document is cached (for whatever language), a language
change event performs no network fetch, keeps the cached document, and
re-parses it for the new language: when the cached document parses for the
new language, the freshly re-localized sequence is published with
`error = null` and `loading = false`. -/
theorem languageChange_cached_no_fetch (net : Net) (lang l0 : String)
    (s : HookState) (doc : Doc)
    (hc : s.fetchedYaml = some (doc, l0)) :
    (languageChange net lang s).2 = false ∧
    (languageChange net lang s).1.fetchedYaml = some (doc, l0) ∧
    (∀ fs, parseYamlConfig doc lang = .ok fs →
      (languageChange net lang s).1.fields = fs ∧
      (languageChange net lang s).1.error = none ∧
      (languageChange net lang s).1.loading = false) := by
  have hlc : languageChange net lang s = (parseEffect lang s, false) := by
    unfold languageChange
    rw [fetchEffect_eq_cached net lang s (doc, l0) hc]
  rw [hlc]
  have hpe := parseEffect_eq lang l0 s doc hc
  cases hp : parseYamlConfig doc lang with
  | ok fs =>
      rw [hp] at hpe
      rw [hpe]
      refine ⟨rfl, hc, fun fs2 h2 => ?_⟩
      cases h2
      exact ⟨rfl, rfl, rfl⟩
  | error e =>
      rw [hp] at hpe
      rw [hpe]
      refine ⟨rfl, hc, fun fs2 h2 => ?_⟩
      exact Except.noConfusion h2

/-- C1 (amended): the fetch effect performs network I/O exactly when no
document is cached yet; once any document was fetched — for the same or any
other language — a request leaves the state untouched and triggers no
fetch. -/
theorem fetchEffect_fetches_iff_no_cache (net : Net) (lang : String)
    (s : HookState) :
    (fetchEffect net lang s).2 = s.fetchedYaml.isNone ∧
    (∀ d l0, s.fetchedYaml = some (d, l0) → (fetchEffect net lang s).1 = s) := by
  cases hc : s.fetchedYaml with
  | some p =>
      rw [fetchEffect_eq_cached net lang s p hc]
      exact ⟨rfl, fun d l0 _ => rfl⟩
  | none =>
      constructor
      · unfold fetchEffect
        rw [hc]
        cases hn : net lang <;> rfl
      · intro d l0 h
        exact Option.noConfusion h

/-- C1 counterexample: with `exampleDoc` cached for `"en"`, requesting the
different language `"es"` triggers no network fetch — refuting "a request
for a different language than any previously fetched one always triggers a
fresh network fetch". -/
theorem fetchEffect_fresh_language_no_fetch_cex :
    cachedState.fetchedYaml = some (exampleDoc, "en") ∧
    ("es" : String) ≠ "en" ∧
    (fetchEffect exampleNet "es" cachedState).2 = false :=
  ⟨rfl, by decide, rfl⟩

/-- C8 (amended): a thrown value that is not an `Error` instance is
normalized into a generic error with a descriptive message
(`"Unknown error loading configuration"` at the fetch boundary,
`"Error parsing configuration"` at the parse boundary); a thrown `Error`
instance — network, configuration or any other — is surfaced unchanged; and
in either effect the failure is surfaced in the `error` state, never
silently dropped. -/
theorem catch_normalization :
    (∀ v, fetchCatch (.nonError v) =
      ⟨"Error", "Unknown error loading configuration"⟩) ∧
    (∀ v, parseCatch (.nonError v) =
      ⟨"Error", "Error parsing configuration"⟩) ∧
    (∀ e, fetchCatch (.err e) = e ∧ parseCatch (.err e) = e) ∧
    (∀ (net : Net) (lang : String) (s : HookState) (t : Thrown),
      s.fetchedYaml = none → net lang = .error t →
      (fetchEffect net lang s).1.error = some (fetchCatch t)) ∧
    (∀ (lang l0 : String) (s : HookState) (doc : Doc) (e : JsError),
      s.fetchedYaml = some (doc, l0) → parseYamlConfig doc lang = .error e →
      (parseEffect lang s).error = some e) := by
  refine ⟨fun v => rfl, fun v => rfl, fun e => ⟨rfl, rfl⟩, ?_, ?_⟩
  · intro net lang s t hc hn
    unfold fetchEffect
    rw [hc, hn]
  · intro lang l0 s doc e hc hp
    rw [parseEffect_eq lang l0 s doc hc, hp]

/-- C8 counterexample: a thrown `Error` instance that is neither a network
error nor a configuration error (here a `TypeError`) is surfaced as-is by
both catch handlers, not normalized into a generic error with the
descriptive message. -/
theorem catch_other_error_not_normalized_cex :
    isNetOrConfig (Thrown.err ⟨"TypeError", "boom"⟩) = false ∧
    fetchCatch (Thrown.err ⟨"TypeError", "boom"⟩) = ⟨"TypeError", "boom"⟩ ∧
    parseCatch (Thrown.err ⟨"TypeError", "boom"⟩) = ⟨"TypeError", "boom"⟩ ∧
    fetchCatch (Thrown.err ⟨"TypeError", "boom"⟩) ≠
      ⟨"Error", "Unknown error loading configuration"⟩ ∧
    parseCatch (Thrown.err ⟨"TypeError", "boom"⟩) ≠
      ⟨"Error", "Error parsing configuration"⟩ :=
  ⟨rfl, rfl, rfl, by decide, by decide⟩

/-- C9: the localization step never mutates the raw record: every object
that existed before the call — in particular the `validation` object the
raw record references — has exactly the same content afterwards; the raw
record, a pure value here, is untouched by construction, and the rewritten
`validation` slot belongs to the shallow copy, which points at a freshly
allocated object. -/
theorem localizeFieldRef_no_mutation (h : Heap) (lang name : String)
    (raw : RawFieldRef) (h2 : Heap) (f : LocFieldRef)
    (hok : localizeFieldRef h lang name raw = .ok (h2, f)) :
    (∀ i, i < h.length → heapGet h2 i = heapGet h i) ∧
    (∀ p, raw.validation = some p → heapGet h2 p = heapGet h p) := by
  unfold localizeFieldRef at hok
  split at hok
  · simp at hok
  · cases hv : raw.validation with
    | none =>
        rw [hv] at hok
        dsimp only at hok
        cases hok
        exact ⟨fun i _ => rfl, fun p hp => rfl⟩
    | some p =>
        rw [hv] at hok
        dsimp only at hok
        cases hg : heapGet h p with
        | none =>
            rw [hg] at hok
            dsimp only at hok
            cases hok
            exact ⟨fun i _ => rfl, fun q hq => rfl⟩
        | some vobj =>
            rw [hg] at hok
            dsimp only at hok
            have hplt : p < h.length := by
              unfold heapGet at hg
              exact (List.get?_eq_some.mp hg).1
            cases hm : vobj.errorMessage with
            | none =>
                rw [hm] at hok
                dsimp only at hok
                cases hok
                exact ⟨fun i _ => rfl, fun q hq => rfl⟩
            | some ls =>
                cases ls with
                | str sv =>
                    rw [hm] at hok
                    dsimp only at hok
                    cases hok
                    exact ⟨fun i _ => rfl, fun q hq => rfl⟩
                | map m =>
                    rw [hm] at hok
                    dsimp only at hok
                    cases hok
                    have hpres : ∀ i, i < h.length →
                        heapGet (h ++ [⟨(lookupStr m lang).map LocStr.str,
                          vobj.rest⟩]) i = heapGet h i := by
                      intro i hi
                      unfold heapGet
                      exact List.get?_append hi
                    refine ⟨hpres, ?_⟩
                    intro q hq
                    cases hq
                    exact hpres p hplt

/-! ### Witnesses: the theorems above applied at concrete inputs -/

/-- Witness for C3 at the spec's example document and language `en`. -/
theorem parseYamlConfig_valid_ok_witness :
    ∃ fs, parseYamlConfig exampleDoc "en" = .ok fs ∧
      fs.length = exampleDoc.length ∧
      fs.map FieldDefinition.name = exampleDoc.map Prod.fst ∧
      (fs.map FieldDefinition.dataKey).Nodup :=
  parseYamlConfig_valid_ok "en" exampleDoc (by decide) (by decide) (by decide)

/-- Witness for C4 at `dupDoc`, whose third entry repeats the `dataKey`
`firstName`. -/
theorem parseYamlConfig_duplicate_dataKey_witness :
    ∃ dk, firstDup [] (dupFields.map FieldDefinition.dataKey) = some dk ∧
      parseYamlConfig dupDoc "en" =
        .error (mkConfigError s!"Duplicate dataKey '{dk}'") :=
  parseYamlConfig_duplicate_dataKey "en" dupDoc dupFields rfl (by decide)

/-- Witness for C5: the example `country` entry's label mapping lacks
`fr`. -/
theorem parseYamlConfig_label_errors_witness :
    parseYamlConfig [("country", countryField)] "fr" =
      .error (mkConfigError "Missing label for field 'country' (lang=fr)") ∧
    (∀ (raw2 : RawField) (s : String) (f : FieldDefinition),
      raw2.label = some (.str s) → buildField "fr" "country" raw2 = .ok f →
      f.label = s) :=
  parseYamlConfig_label_errors "fr" "country" countryField [] [] [] rfl
    (Or.inr ⟨[("en", "Country"), ("es", "País")], rfl, rfl⟩)

/-- Witness for C6 at an entry with the unrecognized type `BOOL`. -/
theorem parseYamlConfig_invalid_type_witness :
    parseYamlConfig [("subscribed", boolField)] "en" =
      .error (mkConfigError "Invalid field type for 'subscribed': BOOL") ∧
    (∀ doc : Doc, ("subscribed", boolField) ∈ doc →
      ∃ e, parseYamlConfig doc "en" = .error e) :=
  parseYamlConfig_invalid_type "en" "subscribed" boolField [] [] [] "BOOL"
    rfl rfl ⟨by decide, by decide, by decide⟩ rfl

/-- Witness for C10 at an entry whose label is the empty string. -/
theorem parseYamlConfig_empty_label_witness :
    parseYamlConfig [("email", emptyLabelField)] "en" =
      .error (mkConfigError "Missing label for field 'email' (lang=en)") :=
  parseYamlConfig_empty_label "en" "email" emptyLabelField [] [] [] rfl
    (Or.inl rfl)

/-- Witness for C7 at the cached example state. -/
theorem parseEffect_state_contract_witness :
    (parseEffect "en" cachedState).loading = false ∧
    (∀ fs, parseYamlConfig exampleDoc "en" = .ok fs →
      (parseEffect "en" cachedState).fields = fs ∧
      (parseEffect "en" cachedState).error = none) ∧
    (∀ e, parseYamlConfig exampleDoc "en" = .error e →
      (parseEffect "en" cachedState).error = some e ∧
      (parseEffect "en" cachedState).fields = cachedState.fields) :=
  parseEffect_state_contract "en" "en" cachedState exampleDoc rfl

/-- Witness for C2: document cached for `en`, switching the active language
to `es`. -/
theorem languageChange_cached_no_fetch_witness :
    (languageChange exampleNet "es" cachedState).2 = false ∧
    (languageChange exampleNet "es" cachedState).1.fetchedYaml =
      some (exampleDoc, "en") ∧
    (∀ fs, parseYamlConfig exampleDoc "es" = .ok fs →
      (languageChange exampleNet "es" cachedState).1.fields = fs ∧
      (languageChange exampleNet "es" cachedState).1.error = none ∧
      (languageChange exampleNet "es" cachedState).1.loading = false) :=
  languageChange_cached_no_fetch exampleNet "es" "en" cachedState exampleDoc rfl

/-- Witness for C1 (amended) at the cached example state. -/
theorem fetchEffect_fetches_iff_no_cache_witness :
    (fetchEffect exampleNet "fr" cachedState).2 = false ∧
    (fetchEffect exampleNet "fr" cachedState).1 = cachedState :=
  ⟨by rw [(fetchEffect_fetches_iff_no_cache exampleNet "fr" cachedState).1]; rfl,
   (fetchEffect_fetches_iff_no_cache exampleNet "fr" cachedState).2
     exampleDoc "en" rfl⟩

/-- Witness for C8 (amended): a failing fetch surfaces the normalized
error; a failing parse surfaces its configuration error. -/
theorem catch_normalization_witness :
    (fetchEffect failingNet "en" initialHookState).1.error =
      some (fetchCatch (.nonError "oops")) ∧
    (parseEffect "fr" cachedState).error =
      some (mkConfigError "Missing label for field 'firstName' (lang=fr)") :=
  ⟨catch_normalization.2.2.2.1 failingNet "en" initialHookState
     (.nonError "oops") rfl rfl,
   catch_normalization.2.2.2.2 "fr" "en" cachedState exampleDoc
     (mkConfigError "Missing label for field 'firstName' (lang=fr)") rfl rfl⟩

/-- Witness for C9 at the one-object example heap: the object the raw
record references is unchanged after localization. -/
theorem localizeFieldRef_no_mutation_witness :
    heapGet exHeap2 0 = heapGet exHeap 0 :=
  (localizeFieldRef_no_mutation exHeap "es" "f" exRawRef exHeap2 exLocRef
    rfl).2 0 rfl

end Compass
